import Mathlib

/-!
Verification of the chat-history routing and persistence logic of a
Next.js + AI-SDK demo chat application.

The development shallowly embeds:
* the in-memory chat store and trigger router of
  src/app/api/chat/route.ts (in-memory Map variant),
* the file-backed chat store of src/util/chat-store.ts,
* the later route variant (file-store + message validation + streamed
  persistence) of the same route file,
* the stream error handlers (errorHandler / onError),
* the client-side message deduplication helper of src/ui/Chat.tsx.

Messages are abstracted to their id, role and an opaque content payload;
the model invocation, being an external collaborator, is represented by
the message sequence forwarded to it (the RouteResponse.stream payload).
-/

/-- A UI message, abstracted to the fields the routing logic inspects:
its id (compared by the router), its role, and an opaque payload standing
for the parts/metadata the router never looks at. -/
structure Message where
  id : String
  role : String
  content : String
deriving DecidableEq, Repr

/-- The trigger tag of an inbound request.  The route file names the
string literals (submit / regenerate differ in exact spelling between the
two route variants, with identical routing semantics). -/
inductive Trigger where
  | submit
  | regenerate
  | delete
deriving DecidableEq, Repr

/-- The decoded JSON request body: every field the router destructures is
optional, exactly as in the TypeScript type annotation. -/
structure ChatRequest where
  messages : Option (List Message)
  id : Option String
  message : Option Message
  trigger : Option Trigger
  messageId : Option String
deriving DecidableEq, Repr

/-- The observable outcome of one POST invocation: a synchronous JSON
response (the delete path), a thrown Error, or a streamed model response
carrying the message sequence handed to streamText. -/
inductive RouteResponse where
  | json (status : Nat) (ok : Bool) (error : Option String)
  | thrown (msg : String)
  | stream (forwarded : List Message)
deriving DecidableEq, Repr

/-- JavaScript truthiness of an optional string field: undefined and the
empty string are falsy. -/
def truthyStr : Option String → Bool
  | none => false
  | some s => s ≠ ""

/-- The module-level in-memory store of route.ts:
a Map from chat id to a message list. -/
def MemStore : Type := String → Option (List Message)

/-- readChat of route.ts: chatStore.get(id) ?? []. -/
def readChat (store : MemStore) (i : String) : List Message :=
  (store i).getD []

/-- writeChat of route.ts: chatStore.set(id, messages). -/
def writeChat (store : MemStore) (i : String) (msgs : List Message) : MemStore :=
  fun j => if j = i then some msgs else store j

/-- The exact 400 body text of the delete-message input-error response. -/
def deleteErrMsg : String := "Missing id or messageId for delete-message."

/-- The POST handler of src/app/api/chat/route.ts (in-memory variant),
embedded over the explicit store state.  Returns the store after the
handler's synchronous writes together with the response. -/
def POST (store : MemStore) (req : ChatRequest) : MemStore × RouteResponse :=
  if req.trigger = some Trigger.delete then
    match req.id, req.messageId with
    | some i, some mid =>
      if i = "" ∨ mid = "" then
        (store, RouteResponse.json 400 false (some deleteErrMsg))
      else
        let chat := readChat store i
        let next := chat.filter fun m => m.id != mid
        (writeChat store i next, RouteResponse.json 200 true none)
    | _, _ => (store, RouteResponse.json 400 false (some deleteErrMsg))
  else if req.trigger.isSome || (truthyStr req.id && req.messages.isNone) then
    match req.id with
    | none => (store, RouteResponse.thrown "Missing \"id\" for trigger-based routing.")
    | some i =>
      if i = "" then
        (store, RouteResponse.thrown "Missing \"id\" for trigger-based routing.")
      else
        let serverMessages := readChat store i
        match req.trigger with
        | some Trigger.submit =>
          match req.message with
          | none =>
            (store, RouteResponse.thrown "Missing \"message\" for submit-user-message trigger.")
          | some m =>
            let appended := serverMessages ++ [m]
            (writeChat store i appended, RouteResponse.stream appended)
        | some Trigger.regenerate =>
          match req.messageId with
          | none =>
            (store,
              RouteResponse.thrown "Missing \"messageId\" for regenerate-assistant-message trigger.")
          | some mid =>
            if mid = "" then
              (store,
                RouteResponse.thrown "Missing \"messageId\" for regenerate-assistant-message trigger.")
            else
              let truncated :=
                match serverMessages.findIdx? (fun m => m.id == mid) with
                | some idx => serverMessages.take idx
                | none => serverMessages
              (writeChat store i truncated, RouteResponse.stream truncated)
        | _ =>
          let appended :=
            match req.message with
            | some m => serverMessages ++ [m]
            | none => serverMessages
          (writeChat store i appended, RouteResponse.stream appended)
  else
    match req.messages with
    | none => (store, RouteResponse.thrown "Missing \"messages\" array in request body.")
    | some msgs => (store, RouteResponse.stream msgs)

/-- State of the blob backing one chat id in the file-backed store of
src/util/chat-store.ts: the file may be absent, unreadable (read or JSON
parse throws), or hold a parsed message list. -/
inductive Blob where
  | absent
  | unreadable
  | good (msgs : List Message)
deriving DecidableEq, Repr

/-- The file-backed store: one blob per chat id. -/
def FileStore : Type := String → Blob

/-- The store with no chat file at all. -/
def initStore : FileStore := fun _ => Blob.absent

/-- loadChat of src/util/chat-store.ts: read and parse the chat file,
returning [] when anything in the try-block throws.  The function is
total, so a load can never raise. -/
def loadChat (store : FileStore) (i : String) : List Message :=
  match store i with
  | Blob.good msgs => msgs
  | _ => []

/-- saveChat of src/util/chat-store.ts: overwrite the whole blob for the
chat id with the serialized message list. -/
def saveChat (store : FileStore) (chatId : String) (msgs : List Message) : FileStore :=
  fun j => if j = chatId then Blob.good msgs else store j

/-- createChat of src/util/chat-store.ts: writes an empty list under a
freshly generated id (the id generator is external, so the id is a
parameter here). -/
def createChat (store : FileStore) (newId : String) : FileStore × String :=
  (saveChat store newId [], newId)

/-- One invocation of the chat-store API, recording the chat id it was
given (for createChat, the id the external generator produced). -/
inductive StoreOp where
  | createOp (newId : String)
  | saveOp (chatId : String) (msgs : List Message)
  | loadOp (chatId : String)
deriving DecidableEq, Repr

/-- The chat id an operation addresses. -/
def StoreOp.targetId : StoreOp → String
  | StoreOp.createOp i => i
  | StoreOp.saveOp i _ => i
  | StoreOp.loadOp i => i

/-- Effect of one store operation on the backing files (loads do not
mutate). -/
def applyOp (store : FileStore) : StoreOp → FileStore
  | StoreOp.createOp i => (createChat store i).1
  | StoreOp.saveOp i msgs => saveChat store i msgs
  | StoreOp.loadOp _ => store

/-- Run a history of store operations from a given store state. -/
def runOps (store : FileStore) : List StoreOp → FileStore
  | [] => store
  | op :: rest => runOps (applyOp store op) rest

/-- Outcome of validateUIMessages on the combined sequence (the validator
itself is SDK code, treated as an external oracle): success returns the
validated sequence, a TypeValidationError is caught by the route, any
other error is rethrown. -/
inductive ValidationOutcome where
  | ok
  | typeValidationError
  | otherError (msg : String)
deriving DecidableEq, Repr

/-- The POST handler of the later route variant (file store, message
validation, persistence via the stream's onFinish callback).  The
returned store reflects only the handler's synchronous writes: on the
model-call path persistence happens in onFinish, after the model reply,
outside this function. -/
def POSTv2 (store : FileStore) (req : ChatRequest) (vout : ValidationOutcome) :
    FileStore × RouteResponse :=
  if req.trigger = some Trigger.delete then
    match req.id, req.messageId with
    | some i, some mid =>
      if i = "" ∨ mid = "" then
        (store, RouteResponse.json 400 false (some deleteErrMsg))
      else
        let existing := loadChat store i
        let next := existing.filter fun m => m.id != mid
        (saveChat store i next, RouteResponse.json 200 true none)
    | _, _ => (store, RouteResponse.json 400 false (some deleteErrMsg))
  else
    let combined : Except String (List Message) :=
      if req.trigger.isSome || (truthyStr req.id && req.messages.isNone) then
        match req.id with
        | none => Except.error "Missing \"id\" for trigger-based routing."
        | some i =>
          if i = "" then Except.error "Missing \"id\" for trigger-based routing."
          else
            let history := loadChat store i
            match req.trigger with
            | some Trigger.submit =>
              match req.message with
              | none => Except.error "Missing \"message\" for submit-message trigger."
              | some m => Except.ok (history ++ [m])
            | some Trigger.regenerate =>
              match req.messageId with
              | none => Except.error "Missing \"messageId\" for regenerate-message trigger."
              | some mid =>
                if mid = "" then
                  Except.error "Missing \"messageId\" for regenerate-message trigger."
                else
                  match history.findIdx? (fun m => m.id == mid) with
                  | some idx => Except.ok (history.take idx)
                  | none => Except.ok history
            | _ =>
              match req.message with
              | some m => Except.ok (history ++ [m])
              | none => Except.ok history
      else
        match req.messages with
        | none => Except.error "Missing \"messages\" array in request body."
        | some msgs => Except.ok msgs
    match combined with
    | Except.error e => (store, RouteResponse.thrown e)
    | Except.ok msgs =>
      match vout with
      | ValidationOutcome.ok => (store, RouteResponse.stream msgs)
      | ValidationOutcome.typeValidationError => (store, RouteResponse.stream [])
      | ValidationOutcome.otherError m => (store, RouteResponse.thrown m)

/-- A JavaScript error value as the stream error callbacks discriminate
it: null/undefined, a plain string, an Error instance (carrying its
message text), or any other value (carried here by its JSON
serialization). -/
inductive JSError where
  | null
  | str (s : String)
  | error (message : String)
  | other (json : String)
deriving DecidableEq, Repr

/-- errorHandler of the tool-calling route variant: the string handed to
the client when the stream errors. -/
def errorHandler : JSError → String
  | JSError.null => "Unknown error occurred."
  | JSError.str s => s
  | JSError.error message => message
  | JSError.other json => json

/-- The inline onError callback of the later route variant
(toUIMessageStreamResponse's onError). -/
def onErrorCallback : JSError → String
  | JSError.null => "unknown error"
  | JSError.str s => s
  | JSError.error message => message
  | JSError.other json => json

/-- First value stored under a key in an association list (JavaScript
Map lookup; keys are unique by construction of the insertion below). -/
def lookupKey (k : String) : List (String × Message) → Option Message
  | [] => none
  | (k', v) :: t => if k' = k then some v else lookupKey k t

/-- JavaScript Map.set semantics on an insertion-ordered association
list: an existing key keeps its position and gets the new value, a new
key is appended at the end. -/
def mapInsert (acc : List (String × Message)) (k : String) (v : Message) :
    List (String × Message) :=
  match lookupKey k acc with
  | some _ => acc.map fun p => if p.1 = k then (k, v) else p
  | none => acc ++ [(k, v)]

/-- new Map(messages.map(m => [m.id, m])): entries inserted left to
right. -/
def jsMapOfList (l : List Message) : List (String × Message) :=
  l.foldl (fun acc m => mapInsert acc m.id m) []

/-- dedupedMessages of src/ui/Chat.tsx:
Array.from(new Map(messages.map(m => [m.id, m])).values()). -/
def dedupedMessages (l : List Message) : List Message :=
  (jsMapOfList l).map Prod.snd

/-- Boolean membership in a list of seen ids. -/
def seenHas (k : String) : List String → Bool
  | [] => false
  | a :: t => if a = k then true else seenHas k t

/-- Specification-side helper: the ids of a sequence in order of first
occurrence, skipping ids already seen. -/
def firstSeen (seen : List String) : List String → List String
  | [] => []
  | k :: t => if seenHas k seen then firstSeen seen t else k :: firstSeen (k :: seen) t

/-- Specification-side helper: the last message of the sequence carrying
a given id, if any. -/
def lastWithId (k : String) : List Message → Option Message
  | [] => none
  | m :: t =>
    match lastWithId k t with
    | some r => some r
    | none => if m.id = k then some m else none

/-- Reading a chat id right after writing it returns the written list. -/
theorem readChat_writeChat_self (store : MemStore) (i : String) (l : List Message) :
    readChat (writeChat store i l) i = l := by
  simp [readChat, writeChat]

/-- Overwriting the same chat id twice keeps only the last write. -/
theorem writeChat_writeChat (store : MemStore) (i : String) (l l' : List Message) :
    writeChat (writeChat store i l) i l' = writeChat store i l' := by
  funext j
  simp only [writeChat]
  by_cases h : j = i <;> simp [h]

def msgA : Message := ⟨"m1", "user", "a1"⟩
def msgB : Message := ⟨"m2", "user", "b1"⟩
def msgC : Message := ⟨"m1", "assistant", "a2"⟩
def msgD : Message := ⟨"m3", "user", "c1"⟩

def emptyMem : MemStore := fun _ => none

def st01 : MemStore := writeChat emptyMem "c" [msgA, msgB, msgD]

def fallbackReq : ChatRequest :=
  { messages := none, id := some "c1", message := some msgA, trigger := none, messageId := none }

def submitReq : ChatRequest :=
  { messages := none, id := some "c", message := some msgC,
    trigger := some Trigger.submit, messageId := none }

def regenReq : ChatRequest :=
  { messages := none, id := some "c", message := none,
    trigger := some Trigger.regenerate, messageId := some "m2" }

def delReq : ChatRequest :=
  { messages := none, id := some "c", message := none,
    trigger := some Trigger.delete, messageId := some "m2" }

def delMissReq : ChatRequest :=
  { messages := none, id := some "c", message := none,
    trigger := some Trigger.delete, messageId := none }

def msgsOnlyReq : ChatRequest :=
  { messages := some [msgA], id := none, message := none, trigger := none, messageId := none }

/-- C8: a load for a chat id that no create/load/save operation ever
addressed returns the empty sequence, and in general a load over an
absent or unreadable blob returns the empty sequence; loadChat is total,
so no load ever raises. -/
theorem loadChat_untouched_id_empty (ops : List StoreOp) (i : String)
    (hFresh : ∀ op ∈ ops, StoreOp.targetId op ≠ i) :
    loadChat (runOps initStore ops) i = [] ∧
    ∀ s : FileStore, (s i = Blob.absent ∨ s i = Blob.unreadable) → loadChat s i = [] := by
  constructor
  · have key : ∀ (ops : List StoreOp) (s : FileStore),
        (∀ op ∈ ops, StoreOp.targetId op ≠ i) → runOps s ops i = s i := by
      intro ops
      induction ops with
      | nil => intro s _; rfl
      | cons op rest ih =>
        intro s h
        have h1 : StoreOp.targetId op ≠ i := h op (List.mem_cons_self _ _)
        have h2 : ∀ o ∈ rest, StoreOp.targetId o ≠ i :=
          fun o ho => h o (List.mem_cons_of_mem _ ho)
        rw [runOps, ih _ h2]
        cases op with
        | createOp j =>
          have hne : i ≠ j := fun he => h1 (by simp [StoreOp.targetId, he])
          simp [applyOp, createChat, saveChat, hne]
        | saveOp j msgs =>
          have hne : i ≠ j := fun he => h1 (by simp [StoreOp.targetId, he])
          simp [applyOp, saveChat, hne]
        | loadOp j => rfl
    rw [loadChat, key ops initStore hFresh]
    rfl
  · intro s h
    rcases h with h | h <;> simp [loadChat, h]

theorem loadChat_untouched_id_empty_witness :
    loadChat (runOps initStore [StoreOp.createOp "a", StoreOp.saveOp "a" [msgA]]) "b" = [] :=
  (loadChat_untouched_id_empty [StoreOp.createOp "a", StoreOp.saveOp "a" [msgA]] "b"
    (by decide)).1

/-- C9: a delete-message request with a missing id or messageId gets the
synchronous JSON body with ok = false, an error string and status 400,
and neither route variant mutates its store. -/
theorem delete_missing_fields_400 (store : MemStore) (fstore : FileStore)
    (req : ChatRequest) (vout : ValidationOutcome)
    (hTrig : req.trigger = some Trigger.delete)
    (hMiss : req.id = none ∨ req.messageId = none) :
    POST store req = (store, RouteResponse.json 400 false (some deleteErrMsg)) ∧
    POSTv2 fstore req vout = (fstore, RouteResponse.json 400 false (some deleteErrMsg)) := by
  rcases hMiss with h | h
  · rcases hmid : req.messageId with _ | mid <;>
      constructor <;> simp [POST, POSTv2, hTrig, h, hmid]
  · rcases hid : req.id with _ | i <;>
      constructor <;> simp [POST, POSTv2, hTrig, h, hid]

theorem delete_missing_fields_400_witness :
    POST emptyMem delMissReq = (emptyMem, RouteResponse.json 400 false (some deleteErrMsg)) :=
  (delete_missing_fields_400 emptyMem initStore delMissReq ValidationOutcome.ok rfl
    (Or.inr rfl)).1

/-- C6 counterexample: for an upstream Error, both stream error handlers
deliver the Error's internal message text verbatim to the caller, so the
delivered message is not a generic one free of upstream details. -/
theorem error_handlers_leak_counterexample :
    errorHandler (JSError.error "connect ECONNREFUSED 127.0.0.1:5432") =
      "connect ECONNREFUSED 127.0.0.1:5432" ∧
    onErrorCallback (JSError.error "connect ECONNREFUSED 127.0.0.1:5432") =
      "connect ECONNREFUSED 127.0.0.1:5432" := ⟨rfl, rfl⟩

/-- C6 amended: only a null/undefined stream error is converted to a
generic message; every other upstream error is forwarded with its own
content — plain strings verbatim, an Error instance's message text, and
any other value's JSON serialization. -/
theorem error_handlers_forward (s : String) :
    errorHandler (JSError.error s) = s ∧
    onErrorCallback (JSError.error s) = s ∧
    errorHandler (JSError.str s) = s ∧
    onErrorCallback (JSError.str s) = s ∧
    errorHandler (JSError.other s) = s ∧
    onErrorCallback (JSError.other s) = s ∧
    errorHandler JSError.null = "Unknown error occurred." ∧
    onErrorCallback JSError.null = "unknown error" :=
  ⟨rfl, rfl, rfl, rfl, rfl, rfl, rfl, rfl⟩

/-- C3: a submit-message request loads the persisted history, appends
the supplied message at the end, forwards the full appended sequence to
the model, saves the appended sequence, and thus grows the persisted
sequence by at least one message. -/
theorem submit_message_appends (store : MemStore) (req : ChatRequest) (i : String) (m : Message)
    (hTrig : req.trigger = some Trigger.submit)
    (hId : req.id = some i) (hi : i ≠ "")
    (hMsg : req.message = some m) :
    POST store req =
      (writeChat store i (readChat store i ++ [m]),
       RouteResponse.stream (readChat store i ++ [m])) ∧
    readChat (POST store req).1 i = readChat store i ++ [m] ∧
    (readChat store i).length + 1 ≤ (readChat (POST store req).1 i).length := by
  have hP : POST store req =
      (writeChat store i (readChat store i ++ [m]),
       RouteResponse.stream (readChat store i ++ [m])) := by
    simp [POST, hTrig, hId, hi, hMsg]
  refine ⟨hP, ?_, ?_⟩
  · rw [hP]
    exact readChat_writeChat_self store i _
  · rw [hP, readChat_writeChat_self store i _]
    simp

theorem submit_message_appends_witness :
    POST st01 submitReq =
      (writeChat st01 "c" (readChat st01 "c" ++ [msgC]),
       RouteResponse.stream (readChat st01 "c" ++ [msgC])) :=
  (submit_message_appends st01 submitReq "c" msgC rfl rfl (by decide) rfl).1

/-- C1: a regenerate-message request whose messageId is found at index k
of the loaded history forwards exactly the k messages strictly before
that index and saves that truncated sequence to the store before the
model call; when the messageId matches no message the untouched full
history is forwarded (and re-saved unchanged). -/
theorem regenerate_truncates (store : MemStore) (req : ChatRequest) (i mid : String)
    (hTrig : req.trigger = some Trigger.regenerate)
    (hId : req.id = some i) (hi : i ≠ "")
    (hMid : req.messageId = some mid) (hmid : mid ≠ "") :
    (∀ k, (readChat store i).findIdx? (fun m => m.id == mid) = some k →
      POST store req =
        (writeChat store i ((readChat store i).take k),
         RouteResponse.stream ((readChat store i).take k)) ∧
      readChat (POST store req).1 i = (readChat store i).take k ∧
      ((readChat store i).take k).length = k) ∧
    ((readChat store i).findIdx? (fun m => m.id == mid) = none →
      POST store req =
        (writeChat store i (readChat store i), RouteResponse.stream (readChat store i)) ∧
      readChat (POST store req).1 i = readChat store i) := by
  constructor
  · intro k hk
    have hP : POST store req =
        (writeChat store i ((readChat store i).take k),
         RouteResponse.stream ((readChat store i).take k)) := by
      simp [POST, hTrig, hId, hi, hMid, hmid, hk]
    refine ⟨hP, ?_, ?_⟩
    · rw [hP]
      exact readChat_writeChat_self store i _
    · have hlt : k < (readChat store i).length :=
        (List.findIdx?_eq_some_iff_findIdx_eq.mp hk).1
      simp [List.length_take]
      omega
  · intro hk
    have hP : POST store req =
        (writeChat store i (readChat store i), RouteResponse.stream (readChat store i)) := by
      simp [POST, hTrig, hId, hi, hMid, hmid, hk]
    exact ⟨hP, by rw [hP]; exact readChat_writeChat_self store i _⟩

theorem regenerate_truncates_witness :
    (readChat st01 "c").findIdx? (fun m => m.id == "m2") = some 1 ∧
    POST st01 regenReq =
      (writeChat st01 "c" ((readChat st01 "c").take 1),
       RouteResponse.stream ((readChat st01 "c").take 1)) :=
  ⟨by decide,
    ((regenerate_truncates st01 regenReq "c" "m2" rfl rfl (by decide) rfl (by decide)).1
      1 (by decide)).1⟩

/-- C2: a delete-message request whose messageId matches exactly one
persisted message removes exactly that message (order and content of the
others preserved), answers with the small ok JSON body, makes no model
call, and a second identical delete leaves the persisted sequence
unchanged and still answers ok. -/
theorem delete_message_removes_unique (store : MemStore) (req : ChatRequest) (i mid : String)
    (hTrig : req.trigger = some Trigger.delete)
    (hId : req.id = some i) (hi : i ≠ "")
    (hMid : req.messageId = some mid) (hmid : mid ≠ "")
    (hcount : (readChat store i).countP (fun m => m.id == mid) = 1) :
    (POST store req).2 = RouteResponse.json 200 true none ∧
    (∀ fwd, (POST store req).2 ≠ RouteResponse.stream fwd) ∧
    List.Sublist (readChat (POST store req).1 i) (readChat store i) ∧
    (readChat (POST store req).1 i).length + 1 = (readChat store i).length ∧
    (∀ m ∈ readChat (POST store req).1 i, m.id ≠ mid) ∧
    (∀ m ∈ readChat store i, m.id ≠ mid → m ∈ readChat (POST store req).1 i) ∧
    POST (POST store req).1 req = ((POST store req).1, RouteResponse.json 200 true none) := by
  have hP : POST store req =
      (writeChat store i ((readChat store i).filter fun m => m.id != mid),
       RouteResponse.json 200 true none) := by
    simp [POST, hTrig, hId, hi, hMid, hmid]
  have hread : readChat (POST store req).1 i =
      (readChat store i).filter fun m => m.id != mid := by
    rw [hP]
    exact readChat_writeChat_self store i _
  refine ⟨by rw [hP], ?_, ?_, ?_, ?_, ?_, ?_⟩
  · intro fwd
    rw [hP]
    simp
  · rw [hread]
    exact List.filter_sublist _
  · have key : ∀ l : List Message,
        (List.filter (fun m => m.id != mid) l).length
          + List.countP (fun m => m.id == mid) l = l.length := by
      intro l
      induction l with
      | nil => rfl
      | cons m t ih =>
        by_cases h : m.id == mid
        · have hb : (m.id != mid) = false := by simp [bne, h]
          simp [List.filter_cons, List.countP_cons, h, hb]
          omega
        · have hb : (m.id != mid) = true := by simp [bne, h]
          simp [List.filter_cons, List.countP_cons, h, hb]
          omega
    rw [hread]
    have hk := key (readChat store i)
    omega
  · intro m hm
    rw [hread] at hm
    have := (List.mem_filter.mp hm).2
    simpa using this
  · intro m hm hne
    rw [hread]
    exact List.mem_filter.mpr ⟨hm, by simpa using hne⟩
  · have hP2 : POST (POST store req).1 req =
        (writeChat (POST store req).1 i
          ((readChat (POST store req).1 i).filter fun m => m.id != mid),
         RouteResponse.json 200 true none) := by
      simp [POST, hTrig, hId, hi, hMid, hmid]
    rw [hP2, hread]
    have hff : (((readChat store i).filter fun m => m.id != mid).filter
        fun m => m.id != mid) = (readChat store i).filter fun m => m.id != mid := by
      rw [List.filter_filter]
      simp
    rw [hff, hP]
    simp [writeChat_writeChat]

theorem delete_message_removes_unique_witness :
    (POST st01 delReq).2 = RouteResponse.json 200 true none ∧
    (readChat (POST st01 delReq).1 "c").length + 1 = (readChat st01 "c").length :=
  let h := delete_message_removes_unique st01 delReq "c" "m2" rfl rfl (by decide) rfl
    (by decide) (by decide)
  ⟨h.1, h.2.2.2.1⟩

/-- C5 counterexample: a request with no trigger tag but with an id and a
bare message does mutate the Chat Store — the appended sequence is
persisted, so the persisted effect of the no-trigger path is not always
none. -/
theorem no_trigger_mutates_counterexample :
    fallbackReq.trigger = none ∧
    readChat (POST emptyMem fallbackReq).1 "c1" ≠ readChat emptyMem "c1" := by
  constructor
  · rfl
  · decide

/-- C5 amended: a request with no trigger tag but with a non-empty id, a
bare message and no messages array is treated as a full submit — history
loaded, message appended, appended sequence forwarded to the model and
persisted; only when a messages array is supplied is that array forwarded
verbatim with no Chat Store mutation. -/
theorem no_trigger_fallback_behavior (store : MemStore) (req : ChatRequest)
    (hTrig : req.trigger = none) :
    (∀ i m, req.id = some i → i ≠ "" → req.messages = none → req.message = some m →
      POST store req =
        (writeChat store i (readChat store i ++ [m]),
         RouteResponse.stream (readChat store i ++ [m]))) ∧
    (∀ msgs, req.messages = some msgs →
      POST store req = (store, RouteResponse.stream msgs)) := by
  constructor
  · intro i m hId hi hNone hMsg
    simp [POST, hTrig, hId, hi, hNone, hMsg, truthyStr]
  · intro msgs hMsgs
    simp [POST, hTrig, hMsgs]

theorem no_trigger_fallback_behavior_witness :
    POST emptyMem fallbackReq =
      (writeChat emptyMem "c1" (readChat emptyMem "c1" ++ [msgA]),
       RouteResponse.stream (readChat emptyMem "c1" ++ [msgA])) :=
  (no_trigger_fallback_behavior emptyMem fallbackReq rfl).1 "c1" msgA rfl (by decide) rfl rfl

/-- C10: on the id-routing path (any trigger, or the bare id+message
fallback) both the sequence persisted for the chat id and any sequence
forwarded to the model are sublists of the loaded history extended by the
optional client message: retained messages are unchanged and keep their
relative order, the sequence being produced only by appending, prefix
truncation or removal by id. -/
theorem id_routing_preserves_messages (store : MemStore) (req : ChatRequest) (i : String)
    (hId : req.id = some i) (hi : i ≠ "")
    (hPath : req.trigger.isSome ∨ req.messages = none) :
    List.Sublist (readChat (POST store req).1 i)
      (readChat store i ++ (match req.message with | some m => [m] | none => [])) ∧
    (∀ fwd, (POST store req).2 = RouteResponse.stream fwd →
      List.Sublist fwd
        (readChat store i ++ (match req.message with | some m => [m] | none => []))) := by
  rcases htr : req.trigger with _ | tr
  · -- no trigger: hPath forces messages = none, the bare id+message path
    have hNone : req.messages = none := by
      rcases hPath with h | h
      · rw [htr] at h; cases h
      · exact h
    rcases hm : req.message with _ | m
    · have hP : POST store req =
          (writeChat store i (readChat store i), RouteResponse.stream (readChat store i)) := by
        simp [POST, htr, hId, hi, hNone, hm, truthyStr]
      rw [hP, readChat_writeChat_self]
      refine ⟨List.sublist_append_left _ _, ?_⟩
      intro fwd h
      cases h
      exact List.sublist_append_left _ _
    · have hP : POST store req =
          (writeChat store i (readChat store i ++ [m]),
           RouteResponse.stream (readChat store i ++ [m])) := by
        simp [POST, htr, hId, hi, hNone, hm, truthyStr]
      rw [hP, readChat_writeChat_self]
      refine ⟨List.Sublist.refl _, ?_⟩
      intro fwd h
      cases h
      exact List.Sublist.refl _
  · cases tr with
    | delete =>
      rcases hmid : req.messageId with _ | mid
      · have hP : POST store req =
            (store, RouteResponse.json 400 false (some deleteErrMsg)) := by
          simp [POST, htr, hId, hmid]
        rw [hP]
        exact ⟨List.sublist_append_left _ _, by intro fwd h; cases h⟩
      · by_cases hmide : mid = ""
        · have hP : POST store req =
              (store, RouteResponse.json 400 false (some deleteErrMsg)) := by
            simp [POST, htr, hId, hmid, hmide]
          rw [hP]
          exact ⟨List.sublist_append_left _ _, by intro fwd h; cases h⟩
        · have hP : POST store req =
              (writeChat store i ((readChat store i).filter fun m => m.id != mid),
               RouteResponse.json 200 true none) := by
            simp [POST, htr, hId, hi, hmid, hmide]
          rw [hP, readChat_writeChat_self]
          refine ⟨List.Sublist.trans (List.filter_sublist _) (List.sublist_append_left _ _), ?_⟩
          intro fwd h
          cases h
    | submit =>
      rcases hm : req.message with _ | m
      · have hP : POST store req =
            (store, RouteResponse.thrown "Missing \"message\" for submit-user-message trigger.") := by
          simp [POST, htr, hId, hi, hm]
        rw [hP]
        exact ⟨List.sublist_append_left _ _, by intro fwd h; cases h⟩
      · have hP : POST store req =
            (writeChat store i (readChat store i ++ [m]),
             RouteResponse.stream (readChat store i ++ [m])) := by
          simp [POST, htr, hId, hi, hm]
        rw [hP, readChat_writeChat_self]
        refine ⟨List.Sublist.refl _, ?_⟩
        intro fwd h
        cases h
        exact List.Sublist.refl _
    | regenerate =>
      rcases hmid : req.messageId with _ | mid
      · have hP : POST store req =
            (store,
             RouteResponse.thrown "Missing \"messageId\" for regenerate-assistant-message trigger.") := by
          simp [POST, htr, hId, hi, hmid]
        rw [hP]
        exact ⟨List.sublist_append_left _ _, by intro fwd h; cases h⟩
      · by_cases hmide : mid = ""
        · have hP : POST store req =
              (store,
               RouteResponse.thrown "Missing \"messageId\" for regenerate-assistant-message trigger.") := by
            simp [POST, htr, hId, hi, hmid, hmide]
          rw [hP]
          exact ⟨List.sublist_append_left _ _, by intro fwd h; cases h⟩
        · rcases hfind : (readChat store i).findIdx? (fun m => m.id == mid) with _ | k
          · have hP : POST store req =
                (writeChat store i (readChat store i),
                 RouteResponse.stream (readChat store i)) := by
              simp [POST, htr, hId, hi, hmid, hmide, hfind]
            rw [hP, readChat_writeChat_self]
            refine ⟨List.sublist_append_left _ _, ?_⟩
            intro fwd h
            cases h
            exact List.sublist_append_left _ _
          · have hP : POST store req =
                (writeChat store i ((readChat store i).take k),
                 RouteResponse.stream ((readChat store i).take k)) := by
              simp [POST, htr, hId, hi, hmid, hmide, hfind]
            rw [hP, readChat_writeChat_self]
            refine ⟨List.Sublist.trans (List.take_sublist _ _)
              (List.sublist_append_left _ _), ?_⟩
            intro fwd h
            cases h
            exact List.Sublist.trans (List.take_sublist _ _) (List.sublist_append_left _ _)

theorem id_routing_preserves_messages_witness :
    List.Sublist (readChat (POST st01 submitReq).1 "c") (readChat st01 "c" ++ [msgC]) :=
  (id_routing_preserves_messages st01 submitReq "c" rfl (by decide) (Or.inl rfl)).1

/-- C7: on every request that reaches the model call, a type-validation
failure of the combined message sequence is non-fatal — the route still
answers with a model stream, called with the empty validated sequence,
instead of erroring out. -/
theorem validation_failure_nonfatal (store : FileStore) (req : ChatRequest)
    (hModel : ∃ c, (POSTv2 store req ValidationOutcome.ok).2 = RouteResponse.stream c) :
    (POSTv2 store req ValidationOutcome.typeValidationError).2 = RouteResponse.stream [] := by
  obtain ⟨c, hc⟩ := hModel
  by_cases hd : req.trigger = some Trigger.delete
  · exfalso
    rcases hid : req.id with _ | i
    · simp [POSTv2, hd, hid] at hc
    · rcases hmid : req.messageId with _ | mid
      · simp [POSTv2, hd, hid, hmid] at hc
      · by_cases hie : i = "" ∨ mid = "" <;> simp [POSTv2, hd, hid, hmid, hie] at hc
  · simp only [POSTv2, hd, if_false] at hc ⊢
    split at hc
    · simp at hc
    · rfl

theorem validation_failure_nonfatal_witness :
    (POSTv2 initStore msgsOnlyReq ValidationOutcome.typeValidationError).2 =
      RouteResponse.stream [] :=
  validation_failure_nonfatal initStore msgsOnlyReq ⟨[msgA], by decide⟩

theorem lookupKey_append (k : String) (a b : List (String × Message)) :
    lookupKey k (a ++ b) =
      match lookupKey k a with
      | some v => some v
      | none => lookupKey k b := by
  induction a with
  | nil => simp [lookupKey]
  | cons p t ih =>
    rcases p with ⟨k', v'⟩
    by_cases h : k' = k <;> simp [lookupKey, h, ih]

theorem lookupKey_replace_self (k : String) (v : Message) (acc : List (String × Message))
    (w : Message) (hl : lookupKey k acc = some w) :
    lookupKey k (acc.map fun p => if p.1 = k then (k, v) else p) = some v := by
  induction acc with
  | nil => simp [lookupKey] at hl
  | cons p t ih =>
    rcases p with ⟨k', v'⟩
    simp only [List.map_cons]
    by_cases h : k' = k
    · subst h
      rw [if_pos rfl]
      simp [lookupKey]
    · rw [if_neg h]
      simp only [lookupKey, if_neg h] at hl ⊢
      exact ih hl

theorem lookupKey_mapInsert_self (acc : List (String × Message)) (k : String) (v : Message) :
    lookupKey k (mapInsert acc k v) = some v := by
  rw [mapInsert]
  rcases hl : lookupKey k acc with _ | w
  · rw [lookupKey_append, hl]
    simp [lookupKey]
  · exact lookupKey_replace_self k v acc w hl

theorem lookupKey_replace_other (k j : String) (v : Message) (acc : List (String × Message))
    (hne : j ≠ k) :
    lookupKey k (acc.map fun p => if p.1 = j then (j, v) else p) = lookupKey k acc := by
  induction acc with
  | nil => rfl
  | cons p t ih =>
    rcases p with ⟨k', v'⟩
    simp only [List.map_cons]
    by_cases h : k' = j
    · subst h
      rw [if_pos rfl]
      simp only [lookupKey, if_neg hne]
      exact ih
    · rw [if_neg h]
      simp only [lookupKey]
      by_cases h2 : k' = k
      · simp [h2]
      · simp [h2, ih]

theorem lookupKey_mapInsert_other (acc : List (String × Message)) (k j : String) (v : Message)
    (hne : j ≠ k) :
    lookupKey k (mapInsert acc j v) = lookupKey k acc := by
  rw [mapInsert]
  rcases hl : lookupKey j acc with _ | w
  · rw [lookupKey_append]
    rcases h : lookupKey k acc with _ | u <;> simp [lookupKey, hne, h]
  · exact lookupKey_replace_other k j v acc hne

theorem keys_replace (acc : List (String × Message)) (k : String) (v : Message) :
    (acc.map fun p => if p.1 = k then (k, v) else p).map Prod.fst = acc.map Prod.fst := by
  induction acc with
  | nil => rfl
  | cons p t ih =>
    simp only [List.map_cons]
    by_cases h : p.1 = k
    · rw [if_pos h]
      simp [h, ih]
    · rw [if_neg h]
      simp [ih]

theorem seenHas_cons (x k : String) (s : List String) :
    seenHas x (k :: s) = (decide (k = x) || seenHas x s) := by
  by_cases h : k = x <;> simp [seenHas, h]

theorem seenHas_append (x : String) (a b : List String) :
    seenHas x (a ++ b) = (seenHas x a || seenHas x b) := by
  induction a with
  | nil => simp [seenHas]
  | cons k t ih =>
    by_cases h : k = x <;> simp [seenHas, h, ih]

theorem seenHas_eq_true_iff_mem (x : String) (s : List String) :
    seenHas x s = true ↔ x ∈ s := by
  induction s with
  | nil => simp [seenHas]
  | cons k t ih =>
    by_cases h : k = x
    · simp [seenHas, h]
    · have h' : ¬(x = k) := fun he => h he.symm
      simp [seenHas, h, h', ih]

theorem lookupKey_none_iff (k : String) (acc : List (String × Message)) :
    lookupKey k acc = none ↔ seenHas k (acc.map Prod.fst) = false := by
  induction acc with
  | nil => simp [lookupKey, seenHas]
  | cons p t ih =>
    rcases p with ⟨k', v'⟩
    by_cases h : k' = k <;> simp [lookupKey, seenHas, h, ih]

theorem firstSeen_congr (l : List String) : ∀ s1 s2 : List String,
    (∀ x, seenHas x s1 = seenHas x s2) → firstSeen s1 l = firstSeen s2 l := by
  induction l with
  | nil => intro _ _ _; rfl
  | cons k t ih =>
    intro s1 s2 h
    rw [firstSeen, firstSeen, h k]
    cases hk : seenHas k s2
    · have hext : ∀ x, seenHas x (k :: s1) = seenHas x (k :: s2) := fun x => by
        rw [seenHas_cons, seenHas_cons, h x]
      simp [hk, ih _ _ hext]
    · simp [hk, ih _ _ h]

theorem seenHas_snoc (x k : String) (s : List String) :
    seenHas x (s ++ [k]) = seenHas x (k :: s) := by
  rw [seenHas_append, seenHas_cons]
  by_cases h : k = x <;> simp [seenHas, h]

theorem keys_mapInsert (acc : List (String × Message)) (k : String) (v : Message) :
    (mapInsert acc k v).map Prod.fst =
      if lookupKey k acc = none then acc.map Prod.fst ++ [k] else acc.map Prod.fst := by
  rw [mapInsert]
  rcases hl : lookupKey k acc with _ | w
  · simp [hl]
  · simp only [hl]
    rw [if_neg (by simp)]
    exact keys_replace acc k v

theorem keys_foldl (l : List Message) : ∀ acc : List (String × Message),
    (l.foldl (fun acc m => mapInsert acc m.id m) acc).map Prod.fst =
      acc.map Prod.fst ++ firstSeen (acc.map Prod.fst) (l.map Message.id) := by
  induction l with
  | nil => intro acc; simp [firstSeen]
  | cons m t ih =>
    intro acc
    simp only [List.foldl_cons, List.map_cons]
    rw [ih (mapInsert acc m.id m), keys_mapInsert]
    rcases hl : lookupKey m.id acc with _ | w
    · have hs : seenHas m.id (acc.map Prod.fst) = false := (lookupKey_none_iff _ _).mp hl
      have hcong : firstSeen (acc.map Prod.fst ++ [m.id]) (t.map Message.id) =
          firstSeen (m.id :: acc.map Prod.fst) (t.map Message.id) :=
        firstSeen_congr _ _ _ (fun x => seenHas_snoc x m.id _)
      simp [firstSeen, hs, hcong]
    · have hs : seenHas m.id (acc.map Prod.fst) = true := by
        cases hsb : seenHas m.id (acc.map Prod.fst)
        · rw [(lookupKey_none_iff _ _).mpr hsb] at hl
          cases hl
        · rfl
      simp [firstSeen, hs, hl]

theorem keys_foldl_nodup (l : List Message) : ∀ acc : List (String × Message),
    (acc.map Prod.fst).Nodup →
    ((l.foldl (fun acc m => mapInsert acc m.id m) acc).map Prod.fst).Nodup := by
  induction l with
  | nil => intro acc h; exact h
  | cons m t ih =>
    intro acc h
    simp only [List.foldl_cons]
    apply ih
    rw [keys_mapInsert]
    rcases hl : lookupKey m.id acc with _ | w
    · simp only [if_pos rfl]
      have hs : seenHas m.id (acc.map Prod.fst) = false := (lookupKey_none_iff _ _).mp hl
      have hmem : m.id ∉ acc.map Prod.fst := by
        intro hm
        rw [(seenHas_eq_true_iff_mem _ _).mpr hm] at hs
        cases hs
      refine List.Nodup.append h (List.nodup_singleton _) ?_
      intro a ha hb
      have hab : a = m.id := by simpa using hb
      exact hmem (hab ▸ ha)
    · simp [h]

theorem snd_id_foldl (l : List Message) : ∀ acc : List (String × Message),
    (∀ p ∈ acc, (Prod.snd p).id = p.1) →
    ∀ p ∈ l.foldl (fun acc m => mapInsert acc m.id m) acc, (Prod.snd p).id = p.1 := by
  induction l with
  | nil => intro acc h; exact h
  | cons m t ih =>
    intro acc h
    simp only [List.foldl_cons]
    apply ih
    intro p hp
    simp only [mapInsert] at hp
    rcases hl : lookupKey m.id acc with _ | w
    · rw [hl] at hp
      rcases List.mem_append.mp hp with h1 | h1
      · exact h p h1
      · have hpe : p = (m.id, m) := by simpa using h1
        rw [hpe]
    · rw [hl] at hp
      rcases List.mem_map.mp hp with ⟨q, hq, rfl⟩
      by_cases hqk : q.1 = m.id
      · rw [if_pos hqk]
      · rw [if_neg hqk]
        exact h q hq

theorem lookupKey_foldl (k : String) (l : List Message) : ∀ acc : List (String × Message),
    lookupKey k (l.foldl (fun acc m => mapInsert acc m.id m) acc) =
      match lastWithId k l with
      | some r => some r
      | none => lookupKey k acc := by
  induction l with
  | nil => intro acc; rfl
  | cons m t ih =>
    intro acc
    simp only [List.foldl_cons]
    rw [ih (mapInsert acc m.id m), lastWithId]
    rcases hlt : lastWithId k t with _ | r
    · by_cases hmk : m.id = k
      · subst hmk
        rw [if_pos rfl]
        exact lookupKey_mapInsert_self acc m.id m
      · rw [if_neg hmk]
        exact lookupKey_mapInsert_other acc k m.id m hmk
    · rfl

theorem lookupKey_of_mem (al : List (String × Message)) (hnd : (al.map Prod.fst).Nodup)
    (k : String) (v : Message) (hmem : (k, v) ∈ al) : lookupKey k al = some v := by
  induction al with
  | nil => cases hmem
  | cons p t ih =>
    rcases p with ⟨k', v'⟩
    have hnd' : k' ∉ t.map Prod.fst ∧ (t.map Prod.fst).Nodup :=
      List.nodup_cons.mp (by simpa using hnd)
    rcases List.mem_cons.mp hmem with h1 | h1
    · injection h1 with h2 h3
      subst h2
      subst h3
      simp [lookupKey]
    · have hk : k' ≠ k := by
        intro he
        subst he
        exact hnd'.1 (List.mem_map.mpr ⟨(k', v), h1, rfl⟩)
      rw [lookupKey, if_neg hk]
      exact ih hnd'.2 h1

theorem mem_firstSeen (x : String) (l : List String) : ∀ seen : List String,
    x ∈ firstSeen seen l ↔ x ∈ l ∧ seenHas x seen = false := by
  induction l with
  | nil => intro seen; simp [firstSeen]
  | cons k t ih =>
    intro seen
    rw [firstSeen]
    cases hk : seenHas k seen
    · by_cases hxk : x = k
      · subst hxk
        simp [hk]
      · have hkx : ¬(k = x) := fun he => hxk he.symm
        simp [hk, hxk, ih (k :: seen), seenHas_cons, hkx]
    · by_cases hxk : x = k
      · subst hxk
        simp [hk, ih seen]
      · simp [hk, hxk, ih seen]

/-- C4: the deduplication helper keeps each message id exactly once
(its output ids are exactly the first-seen-order, duplicate-free ids of
the input), every retained entry is the last input message carrying its
id, and on the concrete inputs with ids m1, m2, m1, m3 and distinct
payloads the output is the last m1 value followed by the m2 and m3
values. -/
theorem dedupedMessages_spec (l : List Message) :
    (dedupedMessages l).map Message.id = firstSeen [] (l.map Message.id) ∧
    ((dedupedMessages l).map Message.id).Nodup ∧
    (∀ k : String, k ∈ (dedupedMessages l).map Message.id ↔ k ∈ l.map Message.id) ∧
    (∀ m ∈ dedupedMessages l, lastWithId m.id l = some m) ∧
    dedupedMessages [msgA, msgB, msgC, msgD] = [msgC, msgB, msgD] := by
  have hids : ∀ p ∈ jsMapOfList l, (Prod.snd p).id = p.1 :=
    snd_id_foldl l [] (by intro p hp; cases hp)
  have hkeys : (jsMapOfList l).map Prod.fst = firstSeen [] (l.map Message.id) := by
    have hkf := keys_foldl l []
    simpa [jsMapOfList] using hkf
  have hnd : ((jsMapOfList l).map Prod.fst).Nodup := by
    have := keys_foldl_nodup l [] (by simp)
    simpa [jsMapOfList] using this
  have hmapeq : (dedupedMessages l).map Message.id = (jsMapOfList l).map Prod.fst := by
    rw [dedupedMessages, List.map_map]
    exact List.map_congr_left (fun p hp => hids p hp)
  refine ⟨?_, ?_, ?_, ?_, ?_⟩
  · rw [hmapeq, hkeys]
  · rw [hmapeq]
    exact hnd
  · intro k
    rw [hmapeq, hkeys, mem_firstSeen k (l.map Message.id) []]
    simp [seenHas]
  · intro m hm
    rw [dedupedMessages] at hm
    rcases List.mem_map.mp hm with ⟨p, hp, rfl⟩
    have hid : (Prod.snd p).id = p.1 := hids p hp
    have hlk : lookupKey p.1 (jsMapOfList l) = some p.2 := by
      apply lookupKey_of_mem _ hnd
      exact hp
    have hfold := lookupKey_foldl p.1 l []
    rw [show (jsMapOfList l) = l.foldl (fun acc m => mapInsert acc m.id m) [] from rfl] at hlk
    rw [hlk] at hfold
    rcases hlt : lastWithId p.1 l with _ | r
    · rw [hlt] at hfold
      simp [lookupKey] at hfold
    · rw [hlt] at hfold
      have hr : r = p.2 := by
        injection hfold.symm
      rw [hid, hlt, hr]
  · decide
